import Mathlib

/-!
Verification of the U-net assembly core (`unets/unet.py`).

The embedding is shallow: tensors are an abstract type `T` together with a
`channels : T → Nat` observation (the size of axis 1); each down-block is a
function `T → T`, each up-block a function `T → T → T` (vertical input,
horizontal skip input).  Python exceptions become `Except PyError`.
Construction (`Unet.__init__`) is modelled by `unetInit` / `unetInitPy`,
which produce the list of block-construction records (`DownSpec`/`UpSpec`)
exactly as the two `zip` loops in the source do; the forward pass
(`Unet.forward`) is modelled by `unetForward`, with an instrumented twin
`unetForwardT` that additionally reports the encoder stage outputs produced
and the (vertical, horizontal) argument pairs each decoder stage received.
-/

namespace Unets

/-- Python exception kinds relevant to this module. -/
inductive PyError where
  | typeError (msg : String)
  | valueError (msg : String)
deriving DecidableEq

/-- Construction record of one down-block: the arguments the loop at
`unet.py:70-74` passes to `DownBlock`. -/
structure DownSpec where
  d_in : Nat
  d_out : Nat
  size : Nat
  name : String
  is_first : Bool
deriving DecidableEq

/-- Construction record of one up-block: the arguments the loop at
`unet.py:79-83` passes to `UpBlock`. -/
structure UpSpec where
  d_bot : Nat
  d_hor : Nat
  d_out : Nat
  size : Nat
  name : String
deriving DecidableEq

/-- `down_dims = [in_features] + down` (`unet.py:68`). -/
def downDims (in_features : Nat) (down : List Nat) : List Nat :=
  in_features :: down

/-- `bot_dims = [down[-1]] + up` (`unet.py:76`).  `down` is nonempty in every
construction that passes the length check, so the default of `getLastD`
is never consulted there. -/
def botDims (down up : List Nat) : List Nat :=
  down.getLastD 0 :: up

/-- `hor_dims = down_dims[-2::-1]` (`unet.py:77`): the reverse of
`down_dims` without its final element. -/
def horDims (in_features : Nat) (down : List Nat) : List Nat :=
  ((downDims in_features down).dropLast).reverse

/-- Three-way `zip`, truncating at the shortest list, as Python `zip` does. -/
def zip3 {α β γ : Type} : List α → List β → List γ → List (α × β × γ)
  | a :: as, b :: bs, c :: cs => (a, b, c) :: zip3 as bs cs
  | _, _, _ => []

/-- The encoder-block construction loop (`unet.py:70-74`):
`for i, (d_in, d_out) in enumerate(zip(down_dims[:-1], down_dims[1:]))`. -/
def mkDownSpecs (in_features : Nat) (down : List Nat) (size : Nat) :
    List DownSpec :=
  (((downDims in_features down).dropLast).zip
      ((downDims in_features down).tail)).enum.map
    (fun p =>
      { d_in := p.2.1, d_out := p.2.2, size := size,
        name := "down_" ++ toString p.1, is_first := p.1 == 0 })

/-- The decoder-block construction loop (`unet.py:79-83`):
`for i, (d_bot, d_hor, d_out) in enumerate(zip(bot_dims, hor_dims, up))`. -/
def mkUpSpecs (in_features : Nat) (down up : List Nat) (size : Nat) :
    List UpSpec :=
  (zip3 (botDims down up) (horDims in_features down) up).enum.map
    (fun p =>
      { d_bot := p.2.1, d_hor := p.2.2.1, d_out := p.2.2.2, size := size,
        name := "up_" ++ toString p.1 })

/-- The result of a successful `Unet.__init__`: the stored schedules and the
two block lists, described by their construction records. -/
structure UnetSpec where
  in_features : Nat
  up : List Nat
  down : List Nat
  downSpecs : List DownSpec
  upSpecs : List UpSpec
deriving DecidableEq

/-- `Unet.__init__` with both schedules supplied as lists (`unet.py:49-83`):
the length check at line 54 raises `ValueError` first; otherwise both block
lists are built. -/
def unetInit (in_features : Nat) (up down : List Nat) (size : Nat) :
    Except PyError UnetSpec :=
  if ¬ (down.length = up.length + 1) then
    .error (.valueError "`down` must be 1 item longer than `up`")
  else
    .ok { in_features := in_features, up := up, down := down,
          downSpecs := mkDownSpecs in_features down size,
          upSpecs := mkUpSpecs in_features down up size }

/-- Python `len` applied to an optional list: `len(None)` raises `TypeError`. -/
def pyLen (l : Option (List Nat)) : Except PyError Nat :=
  match l with
  | none => .error (.typeError "object of type NoneType has no len()")
  | some xs => .ok xs.length

/-- `Unet.__init__` as called through its public signature, where `up` and
`down` default to `None` (`unet.py:49`).  `len(down)` is evaluated first in
`len(down) == len(up) + 1`, so a `None` schedule raises `TypeError` before
the `ValueError` check can fire. -/
def unetInitPy (in_features : Nat) (up down : Option (List Nat)) (size : Nat) :
    Except PyError UnetSpec :=
  match pyLen down with
  | .error e => .error e
  | .ok _ =>
    match pyLen up with
    | .error e => .error e
    | .ok _ => unetInit in_features (up.getD []) (down.getD []) size

/-- Runtime model of an assembled `Unet`: the stored attributes plus the two
block lists as functions on abstract tensors, and the channel observation
`channels t` modelling `t.size(1)`. -/
structure UnetModel (T : Type) where
  in_features : Nat
  down : List Nat
  up : List Nat
  path_down : List (T → T)
  path_up : List (T → T → T)
  channels : T → Nat

/-- The activation trace of the encoder loop (`unet.py:97-99`):
`features = [inp]; for layer in path_down: features.append(layer(features[-1]))`.
The result lists `inp` first, then each stage output in order. -/
def encoderTrace {T : Type} : List (T → T) → T → List T
  | [], last => [last]
  | b :: bs, last => last :: encoderTrace bs (b last)

/-- Left-to-right application of a block list to an activation. -/
def applyBlocks {T : Type} (bs : List (T → T)) (x : T) : T :=
  bs.foldl (fun t b => b t) x

/-- The activation produced by encoder stage `j` (0-based): the composite of
blocks `0..j` applied to the raw input. -/
def encStageOut {T : Type} (bs : List (T → T)) (inp : T) (j : Nat) : T :=
  applyBlocks (bs.take (j + 1)) inp

/-- `features_horizontal = features[-2::-1]` (`unet.py:102`): the reverse of
the trace without its final element. -/
def featuresHorizontal {T : Type} (bs : List (T → T)) (inp : T) : List T :=
  ((encoderTrace bs inp).dropLast).reverse

/-- The decoder loop (`unet.py:104-105`):
`for layer, f_hor in zip(path_up, features_horizontal): f_bot = layer(f_bot, f_hor)`. -/
def decoderRun {T : Type} : List (T → T → T) → List T → T → T
  | [], _, f_bot => f_bot
  | _ :: _, [], f_bot => f_bot
  | l :: ls, h :: hs, f_bot => decoderRun ls hs (l f_bot h)

/-- The decoder loop, instrumented: besides the final activation it returns
the list of `(f_bot, f_hor)` argument pairs handed to the successive decoder
stages, in stage order. -/
def decoderRunT {T : Type} : List (T → T → T) → List T → T → T × List (T × T)
  | [], _, f_bot => (f_bot, [])
  | _ :: _, [], f_bot => (f_bot, [])
  | l :: ls, h :: hs, f_bot =>
    let r := decoderRunT ls hs (l f_bot h)
    (r.1, (f_bot, h) :: r.2)

/-- The shape-error message of `unet.py:93-94`:
`"Expected {} feature channels in input, got {}".format(in_features, inp.size(1))`. -/
def shapeErrMsg (expected actual : Nat) : String :=
  "Expected " ++ toString expected ++ " feature channels in input, got "
    ++ toString actual

/-- `Unet.forward` (`unet.py:90-107`): channel check, encoder loop, slice,
decoder loop. -/
def unetForward {T : Type} (m : UnetModel T) (inp : T) : Except PyError T :=
  if m.channels inp ≠ m.in_features then
    .error (.valueError (shapeErrMsg m.in_features (m.channels inp)))
  else
    let features := encoderTrace m.path_down inp
    let f_bot := features.getLastD inp
    .ok (decoderRun m.path_up (featuresHorizontal m.path_down inp) f_bot)

/-- `Unet.forward`, instrumented: the result, the list of encoder stage
outputs appended to the trace (empty when the channel check fails, so no
stage ran), and the `(f_bot, f_hor)` pairs the decoder stages consumed. -/
def unetForwardT {T : Type} (m : UnetModel T) (inp : T) :
    Except PyError T × List T × List (T × T) :=
  if m.channels inp ≠ m.in_features then
    (.error (.valueError (shapeErrMsg m.in_features (m.channels inp))), [], [])
  else
    let features := encoderTrace m.path_down inp
    let f_bot := features.getLastD inp
    let r := decoderRunT m.path_up (featuresHorizontal m.path_down inp) f_bot
    (.ok r.1, features.tail, r.2)

/-- One positional argument of a wrapped forward call: a tensor carries its
`requires_grad` flag. -/
inductive TArg where
  | tensor (requires_grad : Bool) (payload : Nat)
  | nonTensor (payload : Nat)
deriving DecidableEq

/-- `torch.is_tensor(arg) and arg.requires_grad` (`unet.py:41`). -/
def argNeedsGrad : TArg → Bool
  | .tensor rg _ => rg
  | .nonTensor _ => false

/-- Modelled from the spec: `torch.utils.checkpoint.checkpoint` (external to
this repository) runs the given function on the given arguments under a
recompute-on-backward policy; its forward output value is identical to a
direct call (spec §4.2: "output values are numerically identical under
either path"). -/
def checkpointRun {V : Type} (f : List TArg → V) (args : List TArg) : V :=
  f args

/-- The `forward` of the class produced by the `checkpointed` decorator
(`unet.py:38-44`): dispatch to `checkpoint` when some positional argument is
a tensor requiring grad, else call the underlying forward directly.  The
Boolean records which path was taken. -/
def checkpointedForward {V : Type} (superFwd : List TArg → V)
    (args : List TArg) : Bool × V :=
  if args.any argNeedsGrad then (true, checkpointRun superFwd args)
  else (false, superFwd args)

/-- One registered parameter tensor: its element count and gradient flag. -/
structure Param where
  numel : Nat
  requires_grad : Bool
deriving DecidableEq

/-- `self.n_params` as computed at `unet.py:85-87`: `numel` summed over
everything `self.parameters()` yields, i.e. over all registered parameters
regardless of their gradient flag. -/
def n_params (ps : List Param) : Nat :=
  ps.foldl (fun acc p => acc + p.numel) 0

/-- Sum of element counts over the trainable parameters only (the quantity
named by the spec's "sum ... across all trainable parameters"). -/
def trainableParamCount (ps : List Param) : Nat :=
  ((ps.filter (fun p => p.requires_grad)).map Param.numel).sum

/-- Sum of element counts over all parameters, trainable or not. -/
def totalParamCount (ps : List Param) : Nat :=
  (ps.map Param.numel).sum

/-- Concrete 3-stage encoder path over `Nat`-coded tensors, for witnesses. -/
def exPathDown : List (Nat → Nat) :=
  [fun t => t + 1, fun t => t + 2, fun t => t + 4]

/-- Concrete 2-stage decoder path over `Nat`-coded tensors, for witnesses. -/
def exPathUp : List (Nat → Nat → Nat) :=
  [fun b h => b + 10 * h, fun b h => b + 100 * h]

/-- Concrete depth-3 model (`down = [4, 8, 16]`, `up = [8, 4]`); every
tensor reports one channel, so the channel check always passes. -/
def exModel : UnetModel Nat :=
  { in_features := 1, down := [4, 8, 16], up := [8, 4],
    path_down := exPathDown, path_up := exPathUp, channels := fun _ => 1 }

/-- Concrete single-stage model in which a tensor is coded by its channel
count (`channels = id`), so channel mismatches are expressible. -/
def natModel : UnetModel Nat :=
  { in_features := 2, down := [3], up := [],
    path_down := [fun _ => 3], path_up := [], channels := fun t => t }

/-- Concrete depth-2 model in which a tensor is coded by its channel count
and every block outputs its declared channel-out, so the block channel
contracts hold definitionally. -/
def c6Model : UnetModel Nat :=
  { in_features := 2, down := [3, 5], up := [4],
    path_down := [fun _ => 3, fun _ => 5], path_up := [fun _ _ => 4],
    channels := fun t => t }

/-!  Theorems.  -/

/-- Helper: the fold computing `n_params` adds `totalParamCount` to its
accumulator. -/
theorem foldl_add_numel (ps : List Param) (a : Nat) :
    ps.foldl (fun acc p => acc + p.numel) a = a + totalParamCount ps := by
  induction ps generalizing a with
  | nil => simp [totalParamCount]
  | cons p ps ih => simp [totalParamCount, ih] ; omega

/-- Helper: the instrumented decoder loop computes the same final activation
as the plain one. -/
theorem decoderRunT_fst {T : Type} :
    ∀ (ls : List (T → T → T)) (hs : List T) (b : T),
      (decoderRunT ls hs b).1 = decoderRun ls hs b
  | [], _, _ => rfl
  | _ :: _, [], _ => rfl
  | l :: ls, h :: hs, b => by
    simp [decoderRunT, decoderRun, decoderRunT_fst ls hs (l b h)]

/-- Helper: the instrumented forward computes the same result as
`unetForward`. -/
theorem unetForwardT_fst {T : Type} (m : UnetModel T) (inp : T) :
    (unetForwardT m inp).1 = unetForward m inp := by
  by_cases h : m.channels inp = m.in_features <;>
    simp [unetForwardT, unetForward, h, decoderRunT_fst]

/-- C3: with both schedules supplied as lists, construction fails — with the
`ValueError` of `unet.py:55` — exactly when `len(down) ≠ len(up) + 1`, and
the failing branch returns the error alone, instantiating no block record;
otherwise construction succeeds with both block lists built. -/
theorem C3_config_error (f : Nat) (up down : List Nat) (size : Nat) :
    (down.length ≠ up.length + 1 →
      unetInit f up down size
        = .error (.valueError "`down` must be 1 item longer than `up`"))
    ∧ (down.length = up.length + 1 →
      unetInit f up down size
        = .ok { in_features := f, up := up, down := down,
                downSpecs := mkDownSpecs f down size,
                upSpecs := mkUpSpecs f down up size }) := by
  constructor <;> intro h <;> simp [unetInit, h]

/-- C3 witness: a mismatched pair of schedules is rejected and a matched
pair is accepted. -/
theorem C3_config_error_witness :
    (unetInit 1 [2] [1] 5
      = .error (.valueError "`down` must be 1 item longer than `up`"))
    ∧ (unetInit 1 [] [1] 5
      = .ok { in_features := 1, up := [], down := [1],
              downSpecs := mkDownSpecs 1 [1] 5,
              upSpecs := mkUpSpecs 1 [1] [] 5 }) :=
  ⟨(C3_config_error 1 [2] [1] 5).1 (by decide),
   (C3_config_error 1 [] [1] 5).2 (by decide)⟩

/-- C10: invoking the constructor at its declared defaults (`up=None`,
`down=None`, `in_features=1`, `size=5`) raises the `TypeError` coming from
`len(None)`, not the documented configuration `ValueError`. -/
theorem C10_default_schedules_type_error :
    unetInitPy 1 none none 5
      = .error (.typeError "object of type NoneType has no len()") := rfl

/-- C7: the wrapped forward of `checkpointed` dispatches through the
checkpoint path exactly when some positional argument is a tensor with
gradient tracking enabled, and in either case returns the value of the
underlying forward on the same arguments. -/
theorem C7_checkpoint_dispatch {V : Type} (f : List TArg → V)
    (args : List TArg) :
    (checkpointedForward f args).1 = args.any argNeedsGrad
    ∧ (checkpointedForward f args).2 = f args := by
  cases h : args.any argNeedsGrad <;>
    simp [checkpointedForward, checkpointRun, h]

/-- C8 counterexample: a single registered parameter of 5 elements with
gradient tracking disabled is counted by `n_params`, so `n_params` differs
from the sum over trainable parameters. -/
theorem C8_counterexample :
    n_params [{ numel := 5, requires_grad := false }]
      ≠ trainableParamCount [{ numel := 5, requires_grad := false }] := by
  decide

/-- C8 amended: the `n_params` snapshot equals the sum of element counts
over all registered parameters, whether or not their gradient tracking is
enabled. -/
theorem C8_n_params_total (ps : List Param) :
    n_params ps = totalParamCount ps := by
  simpa [n_params] using foldl_add_numel ps 0

/-- C9: the forward pass is a deterministic function of the input and of
the model components it reads (channel observation, `in_features`, encoder
and decoder block lists): equal inputs and equal components give equal
outputs. -/
theorem C9_forward_deterministic {T : Type} (m1 m2 : UnetModel T)
    (inp1 inp2 : T)
    (hf : m1.in_features = m2.in_features)
    (hd : m1.path_down = m2.path_down)
    (hu : m1.path_up = m2.path_up)
    (hc : m1.channels = m2.channels)
    (hi : inp1 = inp2) :
    unetForward m1 inp1 = unetForward m2 inp2 := by
  simp [unetForward, featuresHorizontal, hf, hd, hu, hc, hi]

/-- C9 witness: two calls of the concrete model on the same input agree. -/
theorem C9_forward_deterministic_witness :
    unetForward exModel 1 = unetForward exModel 1 :=
  C9_forward_deterministic exModel exModel 1 1 rfl rfl rfl rfl rfl

/-- C5: when the input's channel count differs from `in_features`, the
forward pass stops with the `ValueError` of `unet.py:92-95` — whose message
contains both the expected and the actual channel counts — having produced
no encoder stage output and fed no decoder stage (both instrumentation
lists are empty); when the channel count matches, no such error is raised. -/
theorem C5_shape_error {T : Type} (m : UnetModel T) (inp : T) :
    (m.channels inp ≠ m.in_features →
      unetForwardT m inp
        = (.error (.valueError (shapeErrMsg m.in_features (m.channels inp))),
           [], [])
      ∧ (∃ p q : String,
          shapeErrMsg m.in_features (m.channels inp)
            = p ++ toString m.in_features ++ q)
      ∧ (∃ p q : String,
          shapeErrMsg m.in_features (m.channels inp)
            = p ++ toString (m.channels inp) ++ q))
    ∧ (m.channels inp = m.in_features →
        (unetForwardT m inp).1.isOk = true) := by
  constructor
  · intro h
    refine ⟨by simp [unetForwardT, h],
      ⟨"Expected ",
       " feature channels in input, got " ++ toString (m.channels inp), ?_⟩,
      ⟨"Expected " ++ toString m.in_features
         ++ " feature channels in input, got ", "", ?_⟩⟩
    · simp [shapeErrMsg, String.append_assoc]
    · simp [shapeErrMsg]
  · intro h
    simp [unetForwardT, h, Except.isOk, Except.toBool]

/-- C5 witness: the single-stage concrete model rejects a 3-channel input
with the exact message and zero stage activity, and accepts a 2-channel
input. -/
theorem C5_shape_error_witness :
    (unetForwardT natModel 3
      = (.error (.valueError (shapeErrMsg 2 3)), [], []))
    ∧ (unetForwardT natModel 2).1.isOk = true :=
  ⟨((C5_shape_error natModel 3).1 (by decide)).1,
   (C5_shape_error natModel 2).2 rfl⟩

/-- Helper: the encoder trace has one entry per stage plus the input. -/
theorem encoderTrace_length {T : Type} :
    ∀ (bs : List (T → T)) (inp : T),
      (encoderTrace bs inp).length = bs.length + 1
  | [], _ => rfl
  | b :: bs, inp => by
    simp [encoderTrace, encoderTrace_length bs (b inp)]

/-- Helper: entry `j` of the encoder trace is the composite of the first
`j` blocks applied to the input (entry 0 is the raw input). -/
theorem encoderTrace_getElem {T : Type} (bs : List (T → T)) (inp : T) :
    ∀ (j : Nat) (h : j < (encoderTrace bs inp).length),
      (encoderTrace bs inp)[j] = applyBlocks (bs.take j) inp := by
  induction bs generalizing inp with
  | nil =>
    intro j h
    simp [encoderTrace] at h
    subst h
    simp [encoderTrace, applyBlocks]
  | cons b bs ih =>
    intro j h
    cases j with
    | zero => simp [encoderTrace, applyBlocks]
    | succ j =>
      have hj : j < (encoderTrace bs (b inp)).length := by
        simpa [encoderTrace] using h
      calc (encoderTrace (b :: bs) inp)[j + 1]
          = (encoderTrace bs (b inp))[j] := by simp [encoderTrace]
        _ = applyBlocks (bs.take j) (b inp) := ih (b inp) j hj
        _ = applyBlocks ((b :: bs).take (j + 1)) inp := by
              simp [applyBlocks]

/-- Helper: the last trace entry is the composite of all blocks, whatever
default `getLastD` is given. -/
theorem encoderTrace_getLastD {T : Type} :
    ∀ (bs : List (T → T)) (inp d : T),
      (encoderTrace bs inp).getLastD d = applyBlocks bs inp
  | [], _, _ => rfl
  | b :: bs, inp, d => by
    rw [encoderTrace, List.getLastD_cons,
        encoderTrace_getLastD bs (b inp) inp]
    rfl

/-- Helper: reversing a list without its last element keeps `length - 1`
entries. -/
theorem dropLast_reverse_length {α : Type} (l : List α) :
    l.dropLast.reverse.length = l.length - 1 := by
  simp

/-- Helper: entry `i` of the reversed, last-element-free list is entry
`length - 2 - i` of the original list. -/
theorem dropLast_reverse_getElem {α : Type} (l : List α) (i : Nat)
    (h : i < l.dropLast.reverse.length)
    (h2 : l.length - 2 - i < l.length) :
    l.dropLast.reverse[i] = l[l.length - 2 - i] := by
  have hi : i < l.dropLast.length := by simpa using h
  rw [List.getElem_reverse, List.getElem_dropLast]
  have hidx : l.dropLast.length - 1 - i = l.length - 2 - i := by
    simp [List.length_dropLast]
    omega
  simp only [hidx]

/-- Helper: the slice `features[-2::-1]` has one entry per encoder stage. -/
theorem featuresHorizontal_length {T : Type} (bs : List (T → T)) (inp : T) :
    (featuresHorizontal bs inp).length = bs.length := by
  simp [featuresHorizontal, encoderTrace_length]

/-- Helper: entry `i` of the slice `features[-2::-1]` is the composite of
the first `length - 1 - i` encoder blocks applied to the input; at
`i = length - 1` the `take` is empty and the entry is the raw input. -/
theorem featuresHorizontal_getElem {T : Type} (bs : List (T → T)) (inp : T)
    (i : Nat) (h : i < (featuresHorizontal bs inp).length) :
    (featuresHorizontal bs inp)[i]
      = applyBlocks (bs.take (bs.length - 1 - i)) inp := by
  have hlen := encoderTrace_length bs inp
  have hb : i < bs.length := by
    simpa [featuresHorizontal_length] using h
  have h1 : i < (encoderTrace bs inp).dropLast.reverse.length := by
    simpa [featuresHorizontal] using h
  have h2 : (encoderTrace bs inp).length - 2 - i
      < (encoderTrace bs inp).length := by omega
  have := dropLast_reverse_getElem (encoderTrace bs inp) i h1 h2
  simp only [featuresHorizontal] at h ⊢
  rw [this, encoderTrace_getElem bs inp _ (by omega)]
  have hidx : (encoderTrace bs inp).length - 2 - i = bs.length - 1 - i := by
    omega
  rw [hidx]

/-- Helper: the instrumented decoder loop records one pair per iteration,
i.e. `min` of the two zipped lengths. -/
theorem decoderRunT_pairs_length {T : Type} :
    ∀ (ls : List (T → T → T)) (hs : List T) (b : T),
      (decoderRunT ls hs b).2.length = min ls.length hs.length
  | [], hs, _ => by simp [decoderRunT]
  | _ :: _, [], _ => by simp [decoderRunT]
  | l :: ls, h :: hs, b => by
    simp [decoderRunT, decoderRunT_pairs_length ls hs (l b h)]
    omega

/-- Helper: the horizontal component of the `i`-th recorded pair is the
`i`-th element of the zipped horizontal list. -/
theorem decoderRunT_pairs_hor {T : Type} :
    ∀ (ls : List (T → T → T)) (hs : List T) (b : T) (i : Nat)
      (h1 : i < (decoderRunT ls hs b).2.length) (h2 : i < hs.length),
      ((decoderRunT ls hs b).2[i]).2 = hs[i]
  | [], hs, b, i, h1, h2 => by simp [decoderRunT] at h1
  | _ :: _, [], b, i, h1, h2 => by simp [decoderRunT] at h1
  | l :: ls, h :: hs, b, 0, h1, h2 => by simp [decoderRunT]
  | l :: ls, h :: hs, b, i + 1, h1, h2 => by
    have h1i : i < (decoderRunT ls hs (l b h)).2.length := by
      simpa [decoderRunT] using h1
    have h2i : i < hs.length := by simpa using h2
    simpa [decoderRunT] using decoderRunT_pairs_hor ls hs (l b h) i h1i h2i

/-- Helper: the vertical component of the first recorded pair is the
initial bottom activation. -/
theorem decoderRunT_pairs_bot0 {T : Type} (ls : List (T → T → T))
    (hs : List T) (b : T) (h1 : 0 < (decoderRunT ls hs b).2.length) :
    ((decoderRunT ls hs b).2[0]).1 = b := by
  cases ls with
  | nil => simp [decoderRunT] at h1
  | cons l ls =>
    cases hs with
    | nil => simp [decoderRunT] at h1
    | cons h hs => simp [decoderRunT]

/-- Helper: list indexing respects index equality. -/
theorem getElem_idx_congr {α : Type} (l : List α) (i j : Nat) (hij : i = j)
    (hi : i < l.length) (hj : j < l.length) : l[i] = l[j] := by
  subst hij
  rfl

/-- Helper: the decoder loop reads only the first `len(path_up)` entries of
the horizontal list — the `zip` truncation. -/
theorem decoderRun_take {T : Type} :
    ∀ (ls : List (T → T → T)) (hs : List T) (b : T),
      decoderRun ls hs b = decoderRun ls (hs.take ls.length) b
  | [], hs, _ => by cases hs <;> rfl
  | _ :: _, [], _ => by simp [decoderRun]
  | l :: ls, h :: hs, b => by
    simp only [decoderRun, List.length_cons, List.take_succ_cons]
    exact decoderRun_take ls hs (l b h)

/-- C1: in a valid construction (`len(path_down) = len(path_up) + 1`, depth
`D = len(path_down)`), the forward pass feeds decoder stage `i` exactly the
encoder-stage-`D-2-i` activation as its horizontal skip input; exactly
`D - 1` pairs are fed in total, so neither the deepest encoder output nor
the raw input is ever consumed as a skip, and the deepest encoder output
(stage `D-1`) enters only as the first decoder stage's vertical input. -/
theorem C1_skip_wiring {T : Type} (m : UnetModel T) (inp : T)
    (hch : m.channels inp = m.in_features)
    (hD : m.path_down.length = m.path_up.length + 1) :
    (unetForwardT m inp).2.2.length = m.path_down.length - 1
    ∧ (∀ i (h : i < (unetForwardT m inp).2.2.length),
        ((unetForwardT m inp).2.2[i]).2
          = encStageOut m.path_down inp (m.path_down.length - 2 - i))
    ∧ (∀ h0 : 0 < (unetForwardT m inp).2.2.length,
        ((unetForwardT m inp).2.2[0]).1
          = encStageOut m.path_down inp (m.path_down.length - 1)) := by
  have hne : ¬ (m.channels inp ≠ m.in_features) := by simp [hch]
  have hfw : (unetForwardT m inp).2.2
      = (decoderRunT m.path_up (featuresHorizontal m.path_down inp)
          ((encoderTrace m.path_down inp).getLastD inp)).2 := by
    simp only [unetForwardT, if_neg hne]
  have hhor : (featuresHorizontal m.path_down inp).length
      = m.path_down.length := featuresHorizontal_length m.path_down inp
  have hlen : (unetForwardT m inp).2.2.length = m.path_down.length - 1 := by
    rw [hfw, decoderRunT_pairs_length, hhor]
    omega
  refine ⟨hlen, ?_, ?_⟩
  · intro i h
    have hi : i < m.path_down.length - 1 := by rwa [hlen] at h
    have h1 : i < (decoderRunT m.path_up (featuresHorizontal m.path_down inp)
        ((encoderTrace m.path_down inp).getLastD inp)).2.length := by
      rw [← hfw]; exact h
    have h2 : i < (featuresHorizontal m.path_down inp).length := by
      rw [hhor]; omega
    have hpair := decoderRunT_pairs_hor m.path_up
      (featuresHorizontal m.path_down inp)
      ((encoderTrace m.path_down inp).getLastD inp) i h1 h2
    have hget := featuresHorizontal_getElem m.path_down inp i h2
    have hidx : m.path_down.length - 1 - i
        = (m.path_down.length - 2 - i) + 1 := by omega
    simp only [hfw]
    rw [hpair, hget, hidx, encStageOut]
  · intro h0
    have h1 : 0 < (decoderRunT m.path_up (featuresHorizontal m.path_down inp)
        ((encoderTrace m.path_down inp).getLastD inp)).2.length := by
      rw [← hfw]; exact h0
    simp only [hfw]
    rw [decoderRunT_pairs_bot0 _ _ _ h1, encoderTrace_getLastD,
        encStageOut]
    have hidx : (m.path_down.length - 1) + 1 = m.path_down.length := by
      omega
    rw [hidx, List.take_length]

/-- C1 witness: the concrete depth-3 model, on a well-shaped input. -/
theorem C1_skip_wiring_witness :
    (unetForwardT exModel 1).2.2.length = exModel.path_down.length - 1
    ∧ (∀ i (h : i < (unetForwardT exModel 1).2.2.length),
        ((unetForwardT exModel 1).2.2[i]).2
          = encStageOut exModel.path_down 1 (exModel.path_down.length - 2 - i))
    ∧ (∀ h0 : 0 < (unetForwardT exModel 1).2.2.length,
        ((unetForwardT exModel 1).2.2[0]).1
          = encStageOut exModel.path_down 1 (exModel.path_down.length - 1)) :=
  C1_skip_wiring exModel 1 rfl rfl

/-- C2 counterexample: for the depth-3 model (`D = 3`, `in_features = 1`,
`down = [4, 8, 16]`) the slice `features[-2::-1]` has `D` entries, not
`D - 1`, and likewise `hor_dims`; moreover `hor_dims` ends with
`in_features`, which the claim says it excludes. -/
theorem C2_counterexample :
    (featuresHorizontal exPathDown 1).length ≠ exPathDown.length - 1
    ∧ (horDims 1 [4, 8, 16]).length ≠ [4, 8, 16].length - 1
    ∧ (horDims 1 [4, 8, 16]).getD 2 0 = 1 := by
  refine ⟨?_, by decide, by decide⟩
  show ¬ ((featuresHorizontal exPathDown 1).length = exPathDown.length - 1)
  rw [featuresHorizontal_length]
  decide

/-- C2 amended: the slice `features[-2::-1]` (resp. `hor_dims`) has length
`D`, not `D - 1`: its entry at index `i < D - 1` is the output of encoder
stage `D-2-i` (resp. the channel count `down[D-2-i]`), and its final entry
is the raw input (resp. `in_features`); that final entry is harmless
because the decoder `zip` consumes only the first `len(path_up)` entries. -/
theorem C2_slice_mirrors {T : Type} (bs : List (T → T)) (inp : T)
    (f : Nat) (down : List Nat)
    (ls : List (T → T → T)) (hs : List T) (b : T)
    (hbs : bs ≠ []) (hd : down ≠ []) :
    (featuresHorizontal bs inp).length = bs.length
    ∧ (∀ i, i < bs.length - 1 →
        (featuresHorizontal bs inp).getD i inp
          = encStageOut bs inp (bs.length - 2 - i))
    ∧ (featuresHorizontal bs inp).getD (bs.length - 1) inp = inp
    ∧ (horDims f down).length = down.length
    ∧ (∀ i, i < down.length - 1 →
        (horDims f down).getD i 0 = down.getD (down.length - 2 - i) 0)
    ∧ (horDims f down).getD (down.length - 1) 0 = f
    ∧ decoderRun ls hs b = decoderRun ls (hs.take ls.length) b := by
  have hbs1 : 0 < bs.length := List.length_pos.mpr hbs
  have hd1 : 0 < down.length := List.length_pos.mpr hd
  have hflen := featuresHorizontal_length bs inp
  have hhlen : (horDims f down).length = down.length := by
    simp [horDims, downDims]
  refine ⟨hflen, ?_, ?_, hhlen, ?_, ?_, decoderRun_take ls hs b⟩
  · intro i hi
    have h : i < (featuresHorizontal bs inp).length := by omega
    rw [List.getD_eq_getElem _ _ h, featuresHorizontal_getElem bs inp i h,
        encStageOut]
    have hidx : bs.length - 1 - i = (bs.length - 2 - i) + 1 := by omega
    rw [hidx]
  · have h : bs.length - 1 < (featuresHorizontal bs inp).length := by omega
    rw [List.getD_eq_getElem _ _ h,
        featuresHorizontal_getElem bs inp _ h]
    have hidx : bs.length - 1 - (bs.length - 1) = 0 := by omega
    rw [hidx]
    rfl
  · intro i hi
    have hdb : down.length - 2 - i < down.length := by omega
    have h : i < (horDims f down).length := by omega
    have h1 : i < (downDims f down).dropLast.reverse.length := by
      simpa [horDims] using h
    have h2 : (downDims f down).length - 2 - i < (downDims f down).length := by
      simp [downDims]
      omega
    have hrw := dropLast_reverse_getElem (downDims f down) i h1 h2
    have hib : (downDims f down).length - 2 - i
        = (down.length - 2 - i) + 1 := by
      simp [downDims]
      omega
    have hj : (down.length - 2 - i) + 1 < (downDims f down).length := by
      simp [downDims]
      omega
    have hstep : (downDims f down)[(downDims f down).length - 2 - i]
        = (downDims f down)[(down.length - 2 - i) + 1] :=
      getElem_idx_congr _ _ _ hib h2 hj
    have hcons : (downDims f down)[(down.length - 2 - i) + 1]
        = down[down.length - 2 - i] := by
      simp [downDims]
    rw [List.getD_eq_getElem _ _ h]
    show (downDims f down).dropLast.reverse[i]
        = down.getD (down.length - 2 - i) 0
    rw [hrw, hstep, hcons, List.getD_eq_getElem _ _ hdb]
  · have h : down.length - 1 < (horDims f down).length := by omega
    have h1 : down.length - 1 < (downDims f down).dropLast.reverse.length := by
      simpa [horDims] using h
    have h2 : (downDims f down).length - 2 - (down.length - 1)
        < (downDims f down).length := by
      simp only [downDims, List.length_cons]
      omega
    have hrw := dropLast_reverse_getElem (downDims f down) (down.length - 1)
      h1 h2
    have hidx : (downDims f down).length - 2 - (down.length - 1) = 0 := by
      simp only [downDims, List.length_cons]
      omega
    have h0 : 0 < (downDims f down).length := by simp [downDims]
    have hstep :
        (downDims f down)[(downDims f down).length - 2 - (down.length - 1)]
          = (downDims f down)[0] :=
      getElem_idx_congr _ _ _ hidx h2 h0
    rw [List.getD_eq_getElem _ _ h]
    show (downDims f down).dropLast.reverse[down.length - 1] = f
    rw [hrw, hstep]
    rfl

/-- C2 amended witness: the depth-3 concrete instance. -/
theorem C2_slice_mirrors_witness :
    (featuresHorizontal exPathDown 1).length = exPathDown.length
    ∧ (∀ i, i < exPathDown.length - 1 →
        (featuresHorizontal exPathDown 1).getD i 1
          = encStageOut exPathDown 1 (exPathDown.length - 2 - i))
    ∧ (featuresHorizontal exPathDown 1).getD (exPathDown.length - 1) 1 = 1
    ∧ (horDims 1 [4, 8, 16]).length = [4, 8, 16].length
    ∧ (∀ i, i < [4, 8, 16].length - 1 →
        (horDims 1 [4, 8, 16]).getD i 0
          = [4, 8, 16].getD ([4, 8, 16].length - 2 - i) 0)
    ∧ (horDims 1 [4, 8, 16]).getD ([4, 8, 16].length - 1) 0 = 1
    ∧ decoderRun exPathUp [7, 9, 11] 2
        = decoderRun exPathUp ([7, 9, 11].take exPathUp.length) 2 :=
  C2_slice_mirrors exPathDown 1 1 [4, 8, 16] exPathUp [7, 9, 11] 2
    (by simp [exPathDown]) (by decide)

/-- Helper: `zip3` truncates at the shortest of its three inputs. -/
theorem zip3_length {α β γ : Type} :
    ∀ (as : List α) (bs : List β) (cs : List γ),
      (zip3 as bs cs).length = min as.length (min bs.length cs.length)
  | a :: as, b :: bs, c :: cs => by
    simp [zip3, zip3_length as bs cs]
    omega
  | [], _, _ => by simp [zip3]
  | _ :: _, [], _ => by simp [zip3]
  | _ :: _, _ :: _, [] => by simp [zip3]

/-- Helper: the encoder-block loop instantiates one block per `down`
entry. -/
theorem mkDownSpecs_length (f : Nat) (down : List Nat) (size : Nat) :
    (mkDownSpecs f down size).length = down.length := by
  simp [mkDownSpecs, downDims]

/-- Helper: the decoder-block loop instantiates one block per `up` entry —
the `zip` truncates `bot_dims` and `hor_dims`, which both have
`len(down) = len(up) + 1` entries, at `len(up)`. -/
theorem mkUpSpecs_length (f : Nat) (down up : List Nat) (size : Nat)
    (hd : down.length = up.length + 1) :
    (mkUpSpecs f down up size).length = up.length := by
  simp [mkUpSpecs, zip3_length, botDims, horDims, downDims, hd]

/-- C4: for any schedules with `len(down) = len(up) + 1` and positive
`in_features`, construction succeeds; it instantiates exactly `len(down)`
encoder blocks — the `i`-th with channel-in `([in_features] + down)[i]`,
channel-out `down[i]`, and `is_first` exactly at `i = 0` — and exactly
`len(up)` decoder blocks, although the zipped `hor_dims` list has
`len(down)` entries. -/
theorem C4_construction_counts (f : Nat) (up down : List Nat) (size : Nat)
    (hf : 0 < f) (hlen : down.length = up.length + 1) :
    unetInit f up down size
      = .ok { in_features := f, up := up, down := down,
              downSpecs := mkDownSpecs f down size,
              upSpecs := mkUpSpecs f down up size }
    ∧ (mkDownSpecs f down size).length = down.length
    ∧ (∀ i (h : i < (mkDownSpecs f down size).length),
        ((mkDownSpecs f down size)[i]).d_in = (f :: down).getD i 0
        ∧ ((mkDownSpecs f down size)[i]).d_out = down.getD i 0
        ∧ (((mkDownSpecs f down size)[i]).is_first = true ↔ i = 0))
    ∧ (mkUpSpecs f down up size).length = up.length
    ∧ (horDims f down).length = down.length := by
  refine ⟨by simp [unetInit, hlen], mkDownSpecs_length f down size, ?_,
    mkUpSpecs_length f down up size hlen, by simp [horDims, downDims]⟩
  intro i h
  have hi : i < down.length := by
    rwa [mkDownSpecs_length] at h
  have hi1 : i < (f :: down).length := by
    simp
    omega
  have hdi : i < (downDims f down).dropLast.length := by
    simp only [downDims, List.length_dropLast, List.length_cons]
    omega
  have hti : i < (downDims f down).tail.length := by
    simp only [downDims, List.length_tail, List.length_cons]
    omega
  have hmk : (mkDownSpecs f down size)[i]
      = { d_in := ((downDims f down).dropLast)[i],
          d_out := ((downDims f down).tail)[i],
          size := size, name := "down_" ++ toString i,
          is_first := i == 0 } := by
    simp [mkDownSpecs, List.getElem_enum, List.getElem_zip]
  rw [hmk]
  refine ⟨?_, ?_, by simp⟩
  · rw [List.getD_eq_getElem _ _ hi1]
    simp [downDims, List.getElem_dropLast]
  · rw [List.getD_eq_getElem _ _ hi]
    simp [downDims]

/-- C4 witness: the `down = [4, 8, 16]`, `up = [8, 4]` schedules. -/
theorem C4_construction_counts_witness :
    unetInit 1 [8, 4] [4, 8, 16] 5
      = .ok { in_features := 1, up := [8, 4], down := [4, 8, 16],
              downSpecs := mkDownSpecs 1 [4, 8, 16] 5,
              upSpecs := mkUpSpecs 1 [4, 8, 16] [8, 4] 5 }
    ∧ (mkDownSpecs 1 [4, 8, 16] 5).length = [4, 8, 16].length
    ∧ (∀ i (h : i < (mkDownSpecs 1 [4, 8, 16] 5).length),
        ((mkDownSpecs 1 [4, 8, 16] 5)[i]).d_in = (1 :: [4, 8, 16]).getD i 0
        ∧ ((mkDownSpecs 1 [4, 8, 16] 5)[i]).d_out = [4, 8, 16].getD i 0
        ∧ (((mkDownSpecs 1 [4, 8, 16] 5)[i]).is_first = true ↔ i = 0))
    ∧ (mkUpSpecs 1 [4, 8, 16] [8, 4] 5).length = [8, 4].length
    ∧ (horDims 1 [4, 8, 16]).length = [4, 8, 16].length :=
  C4_construction_counts 1 [8, 4] [4, 8, 16] 5 (by decide) (by decide)

/-- Helper: `getLastD` of a nonempty list does not depend on the default. -/
theorem getLastD_irrel {α : Type} (l : List α) (d1 d2 : α) (h : l ≠ []) :
    l.getLastD d1 = l.getLastD d2 := by
  cases hl : l.getLast? with
  | none => exact absurd (List.getLast?_eq_none_iff.mp hl) h
  | some a => simp [List.getLastD_eq_getLast?, hl]

/-- Helper: if every encoder block maps any tensor to one with its declared
output channel count, the composite of a nonempty block list yields the
last declared count. -/
theorem channels_applyBlocks {T : Type} (ch : T → Nat) :
    ∀ (bs : List (T → T)) (ds : List Nat) (inp : T),
      bs.length = ds.length → bs ≠ [] →
      (∀ i (h : i < bs.length) (t : T), ch ((bs[i]) t) = ds.getD i 0) →
      ch (applyBlocks bs inp) = ds.getLastD 0
  | [], _, _, _, hne, _ => absurd rfl hne
  | b :: bs, ds, inp, hlen, _, hc => by
    cases ds with
    | nil => simp at hlen
    | cons d ds =>
      by_cases hbs : bs = []
      · subst hbs
        have hds : ds = [] := by simpa using hlen.symm
        subst hds
        have := hc 0 (by simp) inp
        simpa [applyBlocks] using this
      · have hlen2 : bs.length = ds.length := by simpa using hlen
        have hds : ds ≠ [] := by
          intro hd
          subst hd
          exact hbs (List.length_eq_zero.mp (by simpa using hlen2))
        have hc2 : ∀ i (h : i < bs.length) (t : T),
            ch ((bs[i]) t) = ds.getD i 0 := by
          intro i h t
          have := hc (i + 1) (by simpa using Nat.succ_lt_succ h) t
          simpa using this
        have hrec := channels_applyBlocks ch bs ds (b inp) hlen2 hbs hc2
        have hstep : applyBlocks (b :: bs) inp = applyBlocks bs (b inp) := rfl
        rw [hstep, hrec, List.getLastD_cons, getLastD_irrel ds d 0 hds]

/-- Helper: if every decoder block maps any tensor pair to one with its
declared output channel count, a nonempty decoder run (with enough
horizontal inputs) yields the last declared count. -/
theorem channels_decoderRun {T : Type} (ch : T → Nat) :
    ∀ (ls : List (T → T → T)) (us : List Nat) (hs : List T) (b : T),
      ls.length = us.length → ls ≠ [] → ls.length ≤ hs.length →
      (∀ i (h : i < ls.length) (x y : T), ch ((ls[i]) x y) = us.getD i 0) →
      ch (decoderRun ls hs b) = us.getLastD 0
  | [], _, _, _, _, hne, _, _ => absurd rfl hne
  | l :: ls, us, hs, b, hlen, _, hhs, hc => by
    cases us with
    | nil => simp at hlen
    | cons u us =>
      cases hs with
      | nil => simp at hhs
      | cons h hs =>
        by_cases hls : ls = []
        · subst hls
          have hus : us = [] := by simpa using hlen.symm
          subst hus
          have := hc 0 (by simp) b h
          simpa [decoderRun] using this
        · have hlen2 : ls.length = us.length := by simpa using hlen
          have hus : us ≠ [] := by
            intro hu
            subst hu
            exact hls (List.length_eq_zero.mp (by simpa using hlen2))
          have hc2 : ∀ i (hi : i < ls.length) (x y : T),
              ch ((ls[i]) x y) = us.getD i 0 := by
            intro i hi x y
            have := hc (i + 1) (by simpa using Nat.succ_lt_succ hi) x y
            simpa using this
          have hrec := channels_decoderRun ch ls us hs (l b h) hlen2 hls
            (by simpa using hhs) hc2
          have hstep : decoderRun (l :: ls) (h :: hs) b
              = decoderRun ls hs (l b h) := rfl
          rw [hstep, hrec, List.getLastD_cons, getLastD_irrel us u 0 hus]

/-- C6: if every block satisfies its declared channel contract and the
input has the right channel count, forward succeeds and the output's
channel count is `up[-1]` when `up` is nonempty, and `down[-1]` in the
single-stage degenerate case `up = []`. -/
theorem C6_output_channels {T : Type} (m : UnetModel T) (inp : T)
    (hdl : m.path_down.length = m.down.length)
    (hul : m.path_up.length = m.up.length)
    (hlen : m.down.length = m.up.length + 1)
    (hch : m.channels inp = m.in_features)
    (hdc : ∀ i (h : i < m.path_down.length) (t : T),
        m.channels ((m.path_down[i]) t) = m.down.getD i 0)
    (huc : ∀ i (h : i < m.path_up.length) (x y : T),
        m.channels ((m.path_up[i]) x y) = m.up.getD i 0) :
    ∃ res, unetForward m inp = .ok res
      ∧ m.channels res
          = (if m.up = [] then m.down.getLastD 0 else m.up.getLastD 0) := by
  have hne : ¬ (m.channels inp ≠ m.in_features) := by simp [hch]
  have hdown_ne : m.path_down ≠ [] := by
    intro hd
    rw [hd] at hdl
    simp at hdl
    omega
  have hbot : m.channels ((encoderTrace m.path_down inp).getLastD inp)
      = m.down.getLastD 0 := by
    rw [encoderTrace_getLastD]
    exact channels_applyBlocks m.channels m.path_down m.down inp hdl
      hdown_ne hdc
  refine ⟨decoderRun m.path_up (featuresHorizontal m.path_down inp)
      ((encoderTrace m.path_down inp).getLastD inp),
    by simp only [unetForward, if_neg hne], ?_⟩
  by_cases hup : m.up = []
  · have hpu : m.path_up = [] := by
      rw [hup] at hul
      exact List.length_eq_zero.mp (by simpa using hul)
    rw [hpu]
    simp only [decoderRun, hup, if_pos rfl]
    exact hbot
  · have hpu : m.path_up ≠ [] := by
      intro hp
      rw [hp] at hul
      have hz : m.up.length = 0 := by simpa using hul.symm
      exact hup (List.length_eq_zero.mp hz)
    rw [if_neg hup]
    exact channels_decoderRun m.channels m.path_up m.up
      (featuresHorizontal m.path_down inp)
      ((encoderTrace m.path_down inp).getLastD inp)
      hul hpu
      (by rw [featuresHorizontal_length]; omega)
      huc

/-- C6 witness: the depth-2 concrete model whose blocks output their
declared channel counts. -/
theorem C6_output_channels_witness :
    ∃ res, unetForward c6Model 2 = .ok res
      ∧ c6Model.channels res
          = (if c6Model.up = [] then c6Model.down.getLastD 0
             else c6Model.up.getLastD 0) :=
  C6_output_channels c6Model 2 rfl rfl rfl rfl
    (fun i h t => by
      have h2 : i < 2 := by simpa [c6Model] using h
      interval_cases i <;> rfl)
    (fun i h x y => by
      have h1 : i < 1 := by simpa [c6Model] using h
      interval_cases i
      rfl)

end Unets
